import Mathlib

/-!
Verification development for the cddl-cat repository (CDDL parser and
AST-to-IVT flattener).  The Rust sources `src/parser.rs` and `src/flatten.rs`
are shallowly embedded below: `&str` inputs become `List Char`, nom parser
results become the `PRes` type (distinguishing nom's recoverable
`Err::Error` from its aborting `Err::Failure`), machine integers become
`Nat`/`Int` with explicit bounds, and Rust panics become an explicit
`panicked` outcome of the flattener result type.
-/

namespace CddlCat

/-- Character-list model of Rust string slices. -/
abbrev Str := List Char

/-- The kind of error generated during CDDL parsing (`ErrorKind` in parser.rs). -/
inductive ErrorKind where
  | MalformedInteger
  | MalformedFloat
  | MalformedHex
  | MalformedText
  | Unparseable
deriving DecidableEq, Repr

/-- An error that occurred during CDDL parsing (`ParseError` in parser.rs). -/
structure ParseError where
  kind : ErrorKind
  ctx : Str
deriving DecidableEq, Repr

/-- Result of running a nom parser: success with remaining input, a
recoverable error (nom `Err::Error`), or an aborting failure (nom
`Err::Failure`). -/
inductive PRes (α : Type) where
  | ok (rest : Str) (val : α)
  | err (e : ParseError)
  | fail (e : ParseError)
deriving Repr, DecidableEq

/-- A nom-style parser over string slices. -/
abbrev P (α : Type) := Str → PRes α

/-- The repository's `nom::error::ParseError` impl builds every
combinator-generated error as `parse_error(Unparseable, input)`. -/
def fromErrorKind (input : Str) : ParseError := ⟨ErrorKind.Unparseable, input⟩

/-- nom `map`. -/
def pmap {α β : Type} (f : P α) (g : α → β) : P β := fun i =>
  match f i with
  | .ok r v => .ok r (g v)
  | .err e => .err e
  | .fail e => .fail e

/-- `map_res_fail` from parser.rs: a `map_res` variant that keeps the
closure's error and raises it as a nom `Err::Failure`. -/
def mapResFail {α β : Type} (f : P α) (g : α → Except ParseError β) : P β := fun i =>
  match f i with
  | .ok r v =>
    match g v with
    | .ok b => .ok r b
    | .error e => .fail e
  | .err e => .err e
  | .fail e => .fail e

/-- nom `map_res`: discards the closure's error, producing a recoverable
error built by `from_error_kind` on the original input. -/
def mapRes {α β : Type} (f : P α) (g : α → Except ParseError β) : P β := fun i =>
  match f i with
  | .ok r v =>
    match g v with
    | .ok b => .ok r b
    | .error _ => .err (fromErrorKind i)
  | .err e => .err e
  | .fail e => .fail e

/-- Matches a literal prefix; returns the rest of the input on a hit. -/
def tagMatch : Str → Str → Option Str
  | [], i => some i
  | _ :: _, [] => none
  | c :: t, d :: i => if c = d then tagMatch t i else none

/-- nom `tag`. -/
def tag (t : Str) : P Str := fun i =>
  match tagMatch t i with
  | some rest => .ok rest t
  | none => .err (fromErrorKind i)

/-- nom `char` (imported as `charx` in parser.rs). -/
def charx (c : Char) : P Char := fun i =>
  match i with
  | d :: rest => if d = c then .ok rest c else .err (fromErrorKind i)
  | [] => .err (fromErrorKind i)

/-- nom `one_of`. -/
def oneOf (cs : Str) : P Char := fun i =>
  match i with
  | c :: rest => if cs.contains c then .ok rest c else .err (fromErrorKind i)
  | [] => .err (fromErrorKind i)

/-- nom `anychar`. -/
def anychar : P Char := fun i =>
  match i with
  | c :: rest => .ok rest c
  | [] => .err (fromErrorKind i)

/-- nom `take_while`: always succeeds, possibly consuming nothing. -/
def takeWhilex (p : Char → Bool) : P Str := fun i =>
  .ok (i.dropWhile p) (i.takeWhile p)

/-- nom `take_while1`: errors when no character matches. -/
def takeWhile1 (p : Char → Bool) : P Str := fun i =>
  match i.takeWhile p with
  | [] => .err (fromErrorKind i)
  | l => .ok (i.dropWhile p) l

/-- Rust `char::is_ascii_digit`. -/
def isDigitChar (c : Char) : Bool := '0' ≤ c && c ≤ '9'

/-- Rust `char::is_ascii_hexdigit`. -/
def isHexDigitChar (c : Char) : Bool :=
  isDigitChar c || ('a' ≤ c && c ≤ 'f') || ('A' ≤ c && c ≤ 'F')

/-- Rust `char::is_ascii_alphabetic`. -/
def isAlphaChar (c : Char) : Bool :=
  ('a' ≤ c && c ≤ 'z') || ('A' ≤ c && c ≤ 'Z')

/-- nom `digit0`. -/
def digit0 : P Str := takeWhilex isDigitChar

/-- nom `digit1`. -/
def digit1 : P Str := takeWhile1 isDigitChar

/-- nom `hex_digit1`. -/
def hex_digit1 : P Str := takeWhile1 isHexDigitChar

/-- nom `alpha0`. -/
def alpha0 : P Str := takeWhilex isAlphaChar

/-- nom `multispace1` (space, tab, CR, LF). -/
def multispace1 : P Str :=
  takeWhile1 (fun c => c = ' ' || c = '\t' || c = '\r' || c = '\n')

/-- nom complete `not_line_ending`: consumes up to (not including) a line
ending; a `'\r'` not followed by `'\n'` is an error. -/
def notLineEnding : P Str := fun i =>
  let content := i.takeWhile (fun c => !(c = '\r' || c = '\n'))
  let rest := i.dropWhile (fun c => !(c = '\r' || c = '\n'))
  match rest with
  | '\r' :: tail =>
    match tail with
    | '\n' :: _ => .ok rest content
    | _ => .err (fromErrorKind i)
  | _ => .ok rest content

/-- nom `opt`: recoverable errors become `none`; failures still abort. -/
def optx {α : Type} (f : P α) : P (Option α) := fun i =>
  match f i with
  | .ok r v => .ok r (some v)
  | .err _ => .ok i none
  | .fail e => .fail e

/-- Monadic sequencing of parsers (used to build nom's sequence combinators). -/
def pseq {α β : Type} (f : P α) (g : α → P β) : P β := fun i =>
  match f i with
  | .ok r a => g a r
  | .err e => .err e
  | .fail e => .fail e

/-- nom `pair`. -/
def pairx {α β : Type} (f : P α) (g : P β) : P (α × β) :=
  pseq f (fun a => pmap g (fun b => (a, b)))

/-- nom `preceded`. -/
def preceded {α β : Type} (f : P α) (g : P β) : P β :=
  pseq f (fun _ => g)

/-- nom `terminated`. -/
def terminated {α β : Type} (f : P α) (g : P β) : P α :=
  pseq f (fun a => pmap g (fun _ => a))

/-- nom `delimited`. -/
def delimited {α β γ : Type} (f : P α) (g : P β) (h : P γ) : P β :=
  preceded f (terminated g h)

/-- nom `separated_pair`. -/
def separatedPair {α β γ : Type} (f : P α) (s : P β) (g : P γ) : P (α × γ) :=
  pseq f (fun a => preceded s (pmap g (fun b => (a, b))))

/-- nom `tuple` for three parsers. -/
def tuple3 {α β γ : Type} (f : P α) (g : P β) (h : P γ) : P (α × β × γ) :=
  pseq f (fun a => pseq g (fun b => pmap h (fun c => (a, b, c))))

/-- nom `value` (imported as `valuex` in parser.rs). -/
def valuex {α β : Type} (v : β) (f : P α) : P β := pmap f (fun _ => v)

/-- nom `alt` for two alternatives: a recoverable error tries the next
alternative (nom's error accumulator keeps the most recent error), a
failure aborts. -/
def alt2 {α : Type} (f g : P α) : P α := fun i =>
  match f i with
  | .err _ => g i
  | r => r

/-- Loop body shared by nom `many0`/`many1`: repeat `f` while it succeeds,
stopping on a recoverable error; succeeding without consuming input is an
error (nom's infinite-loop guard).  The fuel bounds the iteration count; it
is at least `input length + 1`, which the guard makes sufficient. -/
def many0Go {α : Type} (f : P α) : Nat → Str → List α → PRes (List α)
  | 0, i, _ => .err (fromErrorKind i)
  | fuel + 1, i, acc =>
    match f i with
    | .err _ => .ok i acc.reverse
    | .fail e => .fail e
    | .ok r v =>
      if r.length = i.length then .err (fromErrorKind i)
      else many0Go f fuel r (v :: acc)

/-- nom `many0`. -/
def many0 {α : Type} (f : P α) : P (List α) := fun i =>
  many0Go f (i.length + 1) i []

/-- nom `many1`: the first application's error propagates; afterwards loop
like `many0`. -/
def many1 {α : Type} (f : P α) : P (List α) := fun i =>
  match f i with
  | .err e => .err e
  | .fail e => .fail e
  | .ok r v => many0Go f (r.length + 1) r [v]

/-- Loop body of nom `separated_nonempty_list` after the first item: parse
separator then item, stopping (without consuming the separator) when either
gives a recoverable error; a separator that consumes nothing is an error. -/
def sepListGo {σ α : Type} (sep : P σ) (f : P α) : Nat → Str → List α → PRes (List α)
  | 0, i, _ => .err (fromErrorKind i)
  | fuel + 1, i, acc =>
    match sep i with
    | .err _ => .ok i acc.reverse
    | .fail e => .fail e
    | .ok i1 _ =>
      if i1.length = i.length then .err (fromErrorKind i1)
      else
        match f i1 with
        | .err _ => .ok i acc.reverse
        | .fail e => .fail e
        | .ok i2 v => sepListGo sep f fuel i2 (v :: acc)

/-- nom `separated_nonempty_list`. -/
def separatedNonemptyList {σ α : Type} (sep : P σ) (f : P α) : P (List α) := fun i =>
  match f i with
  | .err e => .err e
  | .fail e => .fail e
  | .ok i1 v => sepListGo sep f (i1.length + 1) i1 [v]

/-- nom `recognize`: run the parser, return the consumed input slice. -/
def recognize {α : Type} (f : P α) : P Str := fun i =>
  match f i with
  | .ok r _ => .ok r (i.take (i.length - r.length))
  | .err e => .err e
  | .fail e => .fail e

/-- `recognizer` from parser.rs: like `recognize` but keeps the inner
result, returning `(consumed slice, result)`. -/
def recognizer {α : Type} (f : P α) : P (Str × α) := fun i =>
  match f i with
  | .ok r v => .ok r (i.take (i.length - r.length), v)
  | .err e => .err e
  | .fail e => .fail e

/-- nom `all_consuming`: succeed only if no input remains; leftover input
produces a recoverable error on the remainder. -/
def allConsuming {α : Type} (f : P α) : P α := fun i =>
  match f i with
  | .ok rest v =>
    match rest with
    | [] => .ok [] v
    | r => .err (fromErrorKind r)
  | .err e => .err e
  | .fail e => .fail e

/-! Lexing primitives from parser.rs. -/

/-- `comment`: a semicolon, then anything up to a line ending. -/
def comment : P Str := preceded (charx ';') notLineEnding

/-- `ws`: any amount of whitespace, including comments. -/
def ws : P Str := recognize (many0 (alt2 multispace1 comment))

/-- `optcom`: an optional comma and surrounding whitespace. -/
def optcom : P Unit :=
  valuex () (pairx ws (optx (pairx (tag (",".data)) ws)))

/-- `ealpha_char`: alphabetic or one of `@`, `_`, `$`. -/
def ealpha_char (c : Char) : Bool := isAlphaChar c || c = '@' || c = '_' || c = '$'

/-- `ealpha`. -/
def ealpha : P Str := takeWhile1 ealpha_char

/-- `ident_tail`: `*("-" / ".") (EALPHA / DIGIT)`. -/
def ident_tail : P Str :=
  recognize (preceded (optx (many1 (oneOf ("-.".data)))) (alt2 ealpha digit1))

/-- `ident`. -/
def ident : P Str := recognize (preceded ealpha (many0 ident_tail))

/-- `uint_hex`: `0x` followed by hex digits. -/
def uint_hex : P Str := preceded (tag ("0x".data)) hex_digit1

/-- `uint_binary`: `0b` followed by binary digits. -/
def uint_binary : P Str := preceded (tag ("0b".data)) (recognize (many1 (oneOf ("01".data))))

/-- `uint_decimal`: `0`, or a nonzero digit followed by digits. -/
def uint_decimal : P Str :=
  alt2 (tag ("0".data)) (recognize (pairx (oneOf ("123456789".data)) digit0))

/-- `RawUint`: the digit slice plus its radix. -/
structure RawUint where
  slice : Str
  base : Nat
deriving DecidableEq, Repr

/-- `uint`: lex an unsigned integer, remembering the intended radix. -/
def uint : P RawUint :=
  alt2 (pmap uint_hex (fun s => ⟨s, 16⟩))
    (alt2 (pmap uint_binary (fun s => ⟨s, 2⟩))
      (pmap uint_decimal (fun s => ⟨s, 10⟩)))

/-- Rust `char::to_digit(radix)`. -/
def toDigit (c : Char) (radix : Nat) : Option Nat :=
  let v : Option Nat :=
    if isDigitChar c then some (c.toNat - '0'.toNat)
    else if 'a' ≤ c && c ≤ 'z' then some (c.toNat - 'a'.toNat + 10)
    else if 'A' ≤ c && c ≤ 'Z' then some (c.toNat - 'A'.toNat + 10)
    else none
  match v with
  | some d => if d < radix then some d else none
  | none => none

/-- `u64::MAX`. -/
def u64Max : Nat := 2 ^ 64 - 1

/-- `i64::MAX`. -/
def i64Max : Nat := 2 ^ 63 - 1

/-- `usize::MAX` on the 64-bit targets the crate is built for. -/
def usizeMax : Nat := 2 ^ 64 - 1

/-- Digit-accumulation loop of Rust `u64::from_str_radix`, with the checked
multiply/add overflow tests made explicit against `u64::MAX`. -/
def fromStrRadixGo (radix : Nat) : Str → Nat → Option Nat
  | [], acc => some acc
  | c :: t, acc =>
    match toDigit c radix with
    | none => none
    | some d =>
      let m := acc * radix
      if m ≤ u64Max then
        if m + d ≤ u64Max then fromStrRadixGo radix t (m + d) else none
      else none

/-- Rust `u64::from_str_radix` (empty input is an error). -/
def fromStrRadix (s : Str) (radix : Nat) : Option Nat :=
  match s with
  | [] => none
  | _ => fromStrRadixGo radix s 0

/-- The mathematical radix-`b` value of a digit string (used to state
overflow claims; invalid digits count as 0 but the lexers never produce
them). -/
def radixVal (s : Str) (b : Nat) : Nat :=
  s.foldl (fun acc c => acc * b + (toDigit c b).getD 0) 0

/-- `uint_u64`: lex an unsigned integer and convert with the correct radix;
overflow is a `MalformedInteger` failure. -/
def uint_u64 : P Nat :=
  mapResFail uint (fun raw =>
    match fromStrRadix raw.slice raw.base with
    | some v => .ok v
    | none => .error ⟨ErrorKind.MalformedInteger, raw.slice⟩)

/-- `RawInt`: digit slice, radix, and sign. -/
structure RawInt where
  slice : Str
  base : Nat
  neg : Bool
deriving DecidableEq, Repr

/-- `int`: an optional `-` then a `uint`. -/
def int : P RawInt :=
  pmap (pairx (optx (charx '-')) uint)
    (fun x => ⟨x.2.slice, x.2.base, x.1.isSome⟩)

/-- `dot_fraction`: `.` then digits. -/
def dot_fraction : P Str := recognize (pairx (charx '.') digit1)

/-- `e_exponent`: `e`, optional sign, digits. -/
def e_exponent : P Str :=
  recognize (tuple3 (charx 'e') (optx (oneOf ("+-".data))) digit1)

/-! The generic AST `Value` (crate::ast, declared outside src/; shape fixed
by how parser.rs constructs it and by spec §3.1).  An f64 value is a pure
function of the accepted numeral text, so `Float` carries that text. -/

/-- AST literal values (`Value` in crate::ast): `Uint(u64)`, `Nint(i64)`,
`Float(f64)` (represented by its accepted source text), `Text(String)`,
`Bytes(Vec<u8>)`. -/
inductive Value where
  | Uint (n : Nat)
  | Nint (n : Int)
  | Float (text : Str)
  | Text (s : Str)
  | Bytes (b : List Nat)
deriving DecidableEq, Repr

/-- Rust sign prefix of a float literal. -/
def signDrop (s : Str) : Str :=
  match s with
  | c :: t => if c = '+' || c = '-' then t else s
  | [] => []

/-- ASCII lowercasing, for the case-insensitive `inf`/`nan` forms. -/
def asciiLower (c : Char) : Char :=
  if 'A' ≤ c && c ≤ 'Z' then Char.ofNat (c.toNat + 32) else c

/-- The special float tokens accepted by Rust `f64::from_str`. -/
def isSpecialFloat (s : Str) : Bool :=
  let l := s.map asciiLower
  l = ("inf".data) || l = ("infinity".data) || l = ("nan".data)

/-- Optional exponent suffix of a Rust float literal (must end the string). -/
def expTail (s : Str) : Bool :=
  match s with
  | [] => true
  | c :: t =>
    if c = 'e' || c = 'E' then
      let t2 := signDrop t
      !(t2.takeWhile isDigitChar).isEmpty && (t2.dropWhile isDigitChar).isEmpty
    else false

/-- Number body of a Rust float literal: digits, with an optional fraction
(at least one digit overall), then an optional exponent. -/
def rustFloatBody (s : Str) : Bool :=
  let ds := s.takeWhile isDigitChar
  let r := s.dropWhile isDigitChar
  match r with
  | [] => !ds.isEmpty
  | c :: r2 =>
    if c = '.' then
      let d2 := r2.takeWhile isDigitChar
      let r3 := r2.dropWhile isDigitChar
      (!ds.isEmpty || !d2.isEmpty) && expTail r3
    else !ds.isEmpty && expTail r

/-- Acceptor for Rust `f64::from_str` (external std behaviour: optional
sign, then `inf`/`infinity`/`nan` case-insensitively, or a decimal numeral
with optional fraction and exponent). -/
def rustFloatParseable (s : Str) : Bool :=
  let s1 := signDrop s
  isSpecialFloat s1 || rustFloatBody s1

/-- `parse_float`: `s.parse::<f64>()` mapped to `Value::Float`, with
failures reported as `MalformedFloat`. -/
def parse_float (s : Str) : Except ParseError Value :=
  if rustFloatParseable s then .ok (Value.Float s) else .error ⟨ErrorKind.MalformedFloat, s⟩

/-- `try_into_int::<u64, i64>`: fails with `MalformedInteger` when the value
does not fit in an `i64`. -/
def tryIntoI64 (x : Nat) (source : Str) : Except ParseError Int :=
  if x ≤ i64Max then .ok (x : Int) else .error ⟨ErrorKind.MalformedInteger, source⟩

/-- `try_into_int::<u64, usize>` (64-bit target). -/
def tryIntoUsize (x : Nat) (source : Str) : Except ParseError Nat :=
  if x ≤ usizeMax then .ok x else .error ⟨ErrorKind.MalformedInteger, source⟩

/-- `parse_int`: convert a `RawInt` to `Value::Uint` or `Value::Nint`;
radix-conversion overflow and a negative magnitude above `i64::MAX` are
`MalformedInteger`. -/
def parse_int (raw : RawInt) : Except ParseError Value :=
  match fromStrRadix raw.slice raw.base with
  | none => .error ⟨ErrorKind.MalformedInteger, raw.slice⟩
  | some posint =>
    if raw.neg then
      match tryIntoI64 posint raw.slice with
      | .ok negint => .ok (Value.Nint (-negint))
      | .error e => .error e
    else .ok (Value.Uint posint)

/-- `float_or_int`: an integer with optional fraction and exponent; the
presence of either makes it a float parsed from the full recognized text. -/
def float_or_int : P Value :=
  mapResFail (recognizer (tuple3 int (optx dot_fraction) (optx e_exponent)))
    (fun rv =>
      let recognized := rv.1
      let firstint := rv.2.1
      let frac := rv.2.2.1
      let exp := rv.2.2.2
      if frac.isSome || exp.isSome then parse_float recognized
      else parse_int firstint)

/-! Byte strings. -/

/-- `bytestring_utf8`: a single-quoted string whose payload, per the
`FIXME: replace with BCHAR` in the source, is currently `alpha0`. -/
def bytestring_utf8 : P Str := delimited (charx '\'') alpha0 (charx '\'')

/-- `bytestring_hex`: `h'`, whitespace-interleaved hex digits, `'`. -/
def bytestring_hex : P Str :=
  delimited (tag ("h'".data))
    (recognize (pairx ws (many0 (terminated hex_digit1 ws))))
    (charx '\'')

/-- `is_base64_char`. -/
def is_base64_char (c : Char) : Bool :=
  isDigitChar c || isAlphaChar c || c = '+' || c = '/' || c = '='

/-- `base64`: zero or more base64 characters. -/
def base64 : P Str := takeWhilex is_base64_char

/-- `bytestring_base64`: `b64'`, base64 characters, `'`. -/
def bytestring_base64 : P Str :=
  delimited (tag ("b64'".data)) base64 (charx '\'')

/-- Rust `char::is_ascii_whitespace`. -/
def isAsciiWhitespace (c : Char) : Bool :=
  c = ' ' || c = '\t' || c = '\n' || c = '\x0c' || c = '\r'

/-- `hex::decode` (external hex crate): hex digit pairs to bytes; odd
length or a non-hex character is an error. -/
def hexDecode : Str → Option (List Nat)
  | [] => some []
  | a :: b :: rest =>
    match toDigit a 16, toDigit b 16 with
    | some x, some y =>
      match hexDecode rest with
      | some r => some ((16 * x + y) :: r)
      | none => none
    | _, _ => none
  | _ :: [] => none

/-- `parse_hex`: strip ASCII whitespace then hex-decode; failures are
`MalformedHex`. -/
def parse_hex (s : Str) : Except ParseError (List Nat) :=
  let stripped := s.filter (fun c => !isAsciiWhitespace c)
  match hexDecode stripped with
  | some bytes => .ok bytes
  | none => .error ⟨ErrorKind.MalformedHex, stripped⟩

/-- UTF-8 encoding of one character (Rust `str::as_bytes`). -/
def utf8Enc (c : Char) : List Nat :=
  let n := c.toNat
  if n < 0x80 then [n]
  else if n < 0x800 then [0xC0 + n / 64, 0x80 + n % 64]
  else if n < 0x10000 then [0xE0 + n / 4096, 0x80 + n / 64 % 64, 0x80 + n % 64]
  else [0xF0 + n / 262144, 0x80 + n / 4096 % 64, 0x80 + n / 64 % 64, 0x80 + n % 64]

/-- UTF-8 bytes of a string slice. -/
def strBytes (s : Str) : List Nat := (s.map utf8Enc).flatten

/-- `bytestring`: the three byte-string literal forms (the base64 form is
kept undecoded, per the source's FIXME). -/
def bytestring : P (List Nat) :=
  alt2 (pmap bytestring_utf8 (fun s => strBytes s))
    (alt2 (mapResFail bytestring_hex (fun s => parse_hex s))
      (pmap bytestring_base64 (fun s => strBytes s)))

/-! Text literals. -/

/-- `is_unescaped_schar`: the unescaped-character ranges as the source
implements them (note `0x58` and `0x10FFD` where the RFC comment above the
function says `0x5B` and `0x10FFFD`). -/
def is_unescaped_schar (c : Char) : Bool :=
  let cv := c.toNat
  (0x20 ≤ cv && cv ≤ 0x21) || (0x23 ≤ cv && cv ≤ 0x58) ||
  (0x5D ≤ cv && cv ≤ 0x7E) || (0x80 ≤ cv && cv ≤ 0x10FFD)

/-- `unescaped_schar`: one or more unescaped text characters. -/
def unescaped_schar : P Str := takeWhile1 is_unescaped_schar

/-- `sesc`: a backslash followed by any character. -/
def sesc : P Str := preceded (charx '\\') (recognize anychar)

/-- `schar`: zero or more text characters. -/
def schar : P Str := recognize (many0 (alt2 unescaped_schar sesc))

/-- Hex value of four hex digits, if all are valid. -/
def hex4 (a b c d : Char) : Option Nat :=
  match toDigit a 16, toDigit b 16, toDigit c 16, toDigit d 16 with
  | some x, some y, some z, some w => some (((x * 16 + y) * 16 + z) * 16 + w)
  | _, _, _, _ => none

/-- Single-character escapes of RFC 8259. -/
def escChar (c : Char) : Option Char :=
  if c = '"' then some '"'
  else if c = '\\' then some '\\'
  else if c = '/' then some '/'
  else if c = 'b' then some '\x08'
  else if c = 'f' then some '\x0c'
  else if c = 'n' then some '\n'
  else if c = 'r' then some '\r'
  else if c = 't' then some '\t'
  else none

/-- `unescape` of the external escape8259 crate (RFC 8259 string
unescaping, with surrogate pairs; Modelled from the spec: text literals
"must decode as valid Unicode after escape expansion (\n, \t, \uXXXX,
surrogate pairs)"). -/
def unescape : Str → Option Str
  | [] => some []
  | '\\' :: 'u' :: a :: b :: c :: d :: rest =>
    match hex4 a b c d with
    | none => none
    | some cp =>
      if 0xD800 ≤ cp && cp ≤ 0xDBFF then
        match rest with
        | '\\' :: 'u' :: e :: f :: g :: h :: rest2 =>
          match hex4 e f g h with
          | none => none
          | some cp2 =>
            if 0xDC00 ≤ cp2 && cp2 ≤ 0xDFFF then
              match unescape rest2 with
              | some r =>
                some (Char.ofNat (0x10000 + (cp - 0xD800) * 0x400 + (cp2 - 0xDC00)) :: r)
              | none => none
            else none
        | _ => none
      else if 0xDC00 ≤ cp && cp ≤ 0xDFFF then none
      else
        match unescape rest with
        | some r => some (Char.ofNat cp :: r)
        | none => none
  | '\\' :: c :: rest =>
    match escChar c with
    | none => none
    | some e =>
      match unescape rest with
      | some r => some (e :: r)
      | none => none
  | c :: rest =>
    match unescape rest with
    | some r => some (c :: r)
    | none => none

/-- `text_literal`: a double-quoted `schar` run, unescaped; unescaping
failures are `MalformedText`. -/
def text_literal : P Str :=
  mapResFail (delimited (charx '"') schar (charx '"'))
    (fun s =>
      match unescape s with
      | some t => .ok t
      | none => .error ⟨ErrorKind.MalformedText, s⟩)

/-- `value`: number, text, or byte-string literal. -/
def value : P Value :=
  alt2 float_or_int
    (alt2 (pmap text_literal Value.Text)
      (pmap bytestring Value.Bytes))

/-! The syntax tree (crate::ast, declared outside src/; shape fixed by how
parser.rs constructs it and by spec §3.1).  `Type`, `Type1`, `Type2` are
named `Ty`, `Ty1`, `Ty2` because `Type` is reserved in Lean. -/

/-- AST occurrence (`Occur` in crate::ast). -/
inductive AstOccur where
  | Optional
  | OneOrMore
  | ZeroOrMore
  | Numbered (lower : Nat) (upper : Nat)
deriving DecidableEq, Repr

mutual

/-- AST `Type`: a nonempty list of choice alternatives. -/
inductive Ty where
  | mk (choices : List Ty1)

/-- AST `Type1`: simple, range, or control. -/
inductive Ty1 where
  | Simple (t : Ty2)
  | Range (start : Ty2) (stop : Ty2) (inclusive : Bool)
  | Control (first : Ty2) (op : Str) (second : Ty2)

/-- AST `Type2`. -/
inductive Ty2 where
  | Value (v : Value)
  | Typename (name : Str)
  | Parethesized (t : Ty)
  | Map (g : Group)
  | Array (g : Group)
  | Unwrap (name : Str)

/-- AST `Group`: group choices separated by `//`. -/
inductive Group where
  | mk (choices : List GrpChoice)

/-- AST `GrpChoice`. -/
inductive GrpChoice where
  | mk (entries : List GrpEnt)

/-- AST `GrpEnt`: optional occurrence plus a value. -/
inductive GrpEnt where
  | mk (occur : Option AstOccur) (val : GrpEntVal)

/-- AST `GrpEntVal`. -/
inductive GrpEntVal where
  | Member (m : Member)
  | Groupname (name : Str)
  | Parenthesized (g : Group)

/-- AST `Member`: optional member key plus a type. -/
inductive Member where
  | mk (key : Option MemberKey) (value : Ty)

/-- AST `MemberKey`: payload plus cut flag. -/
inductive MemberKey where
  | mk (val : MemberKeyVal) (cut : Bool)

/-- AST `MemberKeyVal`. -/
inductive MemberKeyVal where
  | Type1 (t : Ty1)
  | Bareword (name : Str)
  | Value (v : Value)

end

/-- AST `RuleVal`: a type assignment or a group assignment. -/
inductive RuleVal where
  | AssignType (t : Ty)
  | AssignGroup (g : GrpEnt)

/-- AST `Rule`: a name and its right-hand side. -/
structure Rule where
  name : Str
  val : RuleVal

/-- AST `Cddl`: the rule list. -/
structure Cddl where
  rules : List Rule

/-- AST `CddlSlice`: rules, each paired with its source text. -/
structure CddlSlice where
  rules : List (Rule × Str)

/-! Member keys, occurrences, and the recursive grammar. -/

/-- `memberkey_bareword`: `ident ws ":"`, cut = true. -/
def memberkey_bareword : P MemberKey :=
  pmap (separatedPair ident ws (tag (":".data)))
    (fun x => MemberKey.mk (MemberKeyVal.Bareword x.1) true)

/-- `memberkey_value`: `value ws ":"`, cut = true. -/
def memberkey_value : P MemberKey :=
  pmap (separatedPair value ws (tag (":".data)))
    (fun x => MemberKey.mk (MemberKeyVal.Value x.1) true)

/-- `occur_star`: `[uint] "*" [uint]`; both bounds absent means
`ZeroOrMore`, otherwise `Numbered` with absent lower 0 and absent upper
`usize::MAX`. -/
def occur_star : P AstOccur := fun input =>
  mapRes (tuple3 (optx uint_u64) (tag ("*".data)) (optx uint_u64))
    (fun t =>
      match t.1, t.2.2 with
      | none, none => Except.ok AstOccur.ZeroOrMore
      | o1, o2 => do
        let lower ← match o1 with
          | some n => tryIntoUsize n input
          | none => Except.ok 0
        let upper ← match o2 with
          | some n => tryIntoUsize n input
          | none => Except.ok usizeMax
        Except.ok (AstOccur.Numbered lower upper))
    input

/-- `occur`: `occur_star`, `+`, or `?`. -/
def occur : P AstOccur :=
  alt2 occur_star
    (alt2 (valuex AstOccur.OneOrMore (tag ("+".data)))
      (valuex AstOccur.Optional (tag ("?".data))))

/-- `type2_unwrap`: `~` then an identifier. -/
def type2_unwrap : P Str := preceded (tag ("~".data)) (preceded ws ident)

/-- `control_op`: `.` then an identifier. -/
def control_op : P Str := preceded (tag (".".data)) ident

/-! The mutually recursive grammar.  Rust's recursion is modelled with a
fuel parameter; every cycle through the grammar consumes at least one input
character and the longest chain of grammar productions between two
consumed characters is short, so the generous fuel chosen by the entry
points (`grammarFuel`) is never exhausted on real runs. -/

mutual

/-- `ty` (grammar `type`): `type1` alternatives separated by `/`. -/
def ty (fuel : Nat) : P Ty :=
  match fuel with
  | 0 => fun i => .err (fromErrorKind i)
  | f + 1 =>
    pmap (separatedNonemptyList (delimited ws (tag ("/".data)) ws) (type1 f)) Ty.mk

/-- `type1`: a `type2` with an optional range or control operator. -/
def type1 (fuel : Nat) : P Ty1 :=
  match fuel with
  | 0 => fun i => .err (fromErrorKind i)
  | f + 1 =>
    pmap (pairx (type2 f) (optx (preceded ws (range_or_control_op f))))
      (fun x =>
        match x.2 with
        | none => Ty1.Simple x.1
        | some (op, second) =>
          if op = ("..".data) then Ty1.Range x.1 second true
          else if op = ("...".data) then Ty1.Range x.1 second false
          else Ty1.Control x.1 op second)

/-- `range_or_control_op`: `...`, `..`, or a control identifier, then a
`type2`. -/
def range_or_control_op (fuel : Nat) : P (Str × Ty2) :=
  match fuel with
  | 0 => fun i => .err (fromErrorKind i)
  | f + 1 =>
    pairx (alt2 (tag ("...".data)) (alt2 (tag ("..".data)) control_op))
      (preceded ws (type2 f))

/-- `type2`: value, typename, parenthesized type, map, array, or unwrap. -/
def type2 (fuel : Nat) : P Ty2 :=
  match fuel with
  | 0 => fun i => .err (fromErrorKind i)
  | f + 1 =>
    alt2 (pmap value Ty2.Value)
      (alt2 (pmap ident (fun s => Ty2.Typename s))
        (alt2 (pmap (type2_parens f) Ty2.Parethesized)
          (alt2 (pmap (type2_map f) Ty2.Map)
            (alt2 (pmap (type2_array f) Ty2.Array)
              (pmap type2_unwrap (fun s => Ty2.Unwrap s))))))

/-- `type2_parens`: `(` type `)`. -/
def type2_parens (fuel : Nat) : P Ty :=
  match fuel with
  | 0 => fun i => .err (fromErrorKind i)
  | f + 1 => delimited (charx '(') (delimited ws (ty f) ws) (charx ')')

/-- `type2_map`: `{` group `}`. -/
def type2_map (fuel : Nat) : P Group :=
  match fuel with
  | 0 => fun i => .err (fromErrorKind i)
  | f + 1 => delimited (charx '{') (delimited ws (group f) ws) (charx '}')

/-- `type2_array`: `[` group `]`. -/
def type2_array (fuel : Nat) : P Group :=
  match fuel with
  | 0 => fun i => .err (fromErrorKind i)
  | f + 1 => delimited (charx '[') (delimited ws (group f) ws) (charx ']')

/-- `group`: group choices separated by `//`. -/
def group (fuel : Nat) : P Group :=
  match fuel with
  | 0 => fun i => .err (fromErrorKind i)
  | f + 1 =>
    pmap (pairx (grpchoice f)
        (many0 (preceded (delimited ws (tag ("//".data)) ws) (grpchoice f))))
      (fun x => Group.mk (x.1 :: x.2))

/-- `grpchoice`: zero or more group entries with optional commas. -/
def grpchoice (fuel : Nat) : P GrpChoice :=
  match fuel with
  | 0 => fun i => .err (fromErrorKind i)
  | f + 1 => pmap (many0 (terminated (grpent f) optcom)) GrpChoice.mk

/-- `grpent`: optional occurrence, then a group-entry value. -/
def grpent (fuel : Nat) : P GrpEnt :=
  match fuel with
  | 0 => fun i => .err (fromErrorKind i)
  | f + 1 =>
    pmap (pairx (optx (terminated occur ws)) (grpent_val f))
      (fun x => GrpEnt.mk x.1 x.2)

/-- `grpent_val`: member, group name, or parenthesized group, tried in that
order. -/
def grpent_val (fuel : Nat) : P GrpEntVal :=
  match fuel with
  | 0 => fun i => .err (fromErrorKind i)
  | f + 1 =>
    alt2 (pmap (grpent_member f) GrpEntVal.Member)
      (alt2 (pmap ident (fun s => GrpEntVal.Groupname s))
        (pmap (grpent_parens f) GrpEntVal.Parenthesized))

/-- `grpent_member`: optional member key then a type. -/
def grpent_member (fuel : Nat) : P Member :=
  match fuel with
  | 0 => fun i => .err (fromErrorKind i)
  | f + 1 =>
    pmap (pairx (terminated (optx (memberkey f)) ws) (ty f))
      (fun x => Member.mk x.1 x.2)

/-- `grpent_parens`: `(` group `)`. -/
def grpent_parens (fuel : Nat) : P Group :=
  match fuel with
  | 0 => fun i => .err (fromErrorKind i)
  | f + 1 => delimited (charx '(') (delimited ws (group f) ws) (charx ')')

/-- `memberkey`: type1 key, bareword key, or value key. -/
def memberkey (fuel : Nat) : P MemberKey :=
  match fuel with
  | 0 => fun i => .err (fromErrorKind i)
  | f + 1 => alt2 (memberkey_type1 f) (alt2 memberkey_bareword memberkey_value)

/-- `memberkey_type1`: `type1 ws ["^" ws] "=>"`; cut iff `^` present. -/
def memberkey_type1 (fuel : Nat) : P MemberKey :=
  match fuel with
  | 0 => fun i => .err (fromErrorKind i)
  | f + 1 =>
    pmap (tuple3 (terminated (type1 f) ws)
        (optx (terminated (tag ("^".data)) ws))
        (tag ("=>".data)))
      (fun x => MemberKey.mk (MemberKeyVal.Type1 x.1) x.2.1.isSome)

end

/-- `rule_val`: `=` then a type or group assignment (the operator itself is
discarded). -/
def rule_val (fuel : Nat) : P RuleVal :=
  pmap (separatedPair (tag ("=".data)) ws
      (alt2 (pmap (ty fuel) RuleVal.AssignType) (pmap (grpent fuel) RuleVal.AssignGroup)))
    (fun x => x.2)

/-- `rule`: an identifier then its right-hand side. -/
def rule (fuel : Nat) : P Rule :=
  pmap (separatedPair ident ws (rule_val fuel)) (fun x => Rule.mk x.1 x.2)

/-- Fuel chosen by the parsing entry points: amply larger than the
recursion depth any input of this length can drive the grammar to. -/
def grammarFuel (i : Str) : Nat := 32 * (i.length + 1)

/-- `cddl`: whitespace, then one or more whitespace-terminated rules. -/
def cddl : P Cddl := fun i =>
  pmap (preceded ws (many1 (terminated (rule (grammarFuel i)) ws)))
    (fun rs => Cddl.mk rs) i

/-- `cddl_slice`: like `cddl` but each rule is paired with the source text
it consumed, via `recognizer`. -/
def cddl_slice : P CddlSlice := fun i =>
  pmap (preceded ws
      (many1 (terminated
        (pmap (recognizer (rule (grammarFuel i))) (fun sr => (sr.2, sr.1))) ws)))
    (fun rs => CddlSlice.mk rs) i

/-- `parse_cddl`: the main entry point; all input must be consumed and both
nom error variants are surfaced as the `ParseError`. -/
def parse_cddl (input : Str) : Except ParseError Cddl :=
  match allConsuming cddl input with
  | .ok _ v => .ok v
  | .err e => .error e
  | .fail e => .error e

/-- `slice_parse_cddl`: the slice-preserving entry point. -/
def slice_parse_cddl (input : Str) : Except ParseError CddlSlice :=
  match allConsuming cddl_slice input with
  | .ok _ v => .ok v
  | .err e => .error e
  | .fail e => .error e

/-! Embedding of src/flatten.rs.  This module consumes the AST of the
external `cddl` crate (`cddl::ast`), so the AST fragment below is modelled
from how flatten.rs destructures it; variants flatten.rs never touches are
collapsed into `Other` constructors, which flatten.rs sends to
`unimplemented!()`.  The IVT node types come from `crate::ivt`, which is
declared outside src/; their shape is fixed by how flatten.rs constructs
them and by spec §3.2.  Rust panics (`panic!`, `assert!`, `unimplemented!`,
`Option::unwrap` on `None`) are modelled as the explicit `panicked`
outcome, which is distinct from returning a `ValidateError`. -/

namespace Flat

/-- `ValidateError` (crate::util): the error type flatten returns; the only
constructor flatten.rs ever builds is `Oops(String)`. -/
inductive ValidateError where
  | Oops (msg : String)
deriving DecidableEq, Repr

/-- Outcome of running flattener code: a value, a returned error, or a
Rust panic with its message. -/
inductive FRes (α : Type) where
  | ok (a : α)
  | err (e : ValidateError)
  | panicked (msg : String)
deriving DecidableEq, Repr

/-- Sequencing for `FRes`: errors and panics propagate. -/
def FRes.bind {α β : Type} : FRes α → (α → FRes β) → FRes β
  | .ok a, f => f a
  | .err e, _ => .err e
  | .panicked m, _ => .panicked m

/-- IVT literal constants (`ivt::Literal`; ints are signed 128-bit). -/
inductive Literal where
  | Bool (b : Bool)
  | Int (i : Int)
  | Text (s : String)
deriving DecidableEq, Repr

/-- IVT prelude types (`ivt::PreludeType`): the constructors flatten.rs
builds. -/
inductive PreludeType where
  | Any
  | Bool
  | Int
  | Uint
  | Tstr
deriving DecidableEq, Repr

/-- IVT rule reference by name (`ivt::Rule`); the non-owning back-pointer
installed by `upgrade` is a memory-graph detail with no observable value
here. -/
structure RuleRef where
  name : String
deriving DecidableEq, Repr

/-- `Rule::new(name)`. -/
def RuleRef.new (name : String) : RuleRef := ⟨name⟩

/-- IVT Occur (`ivt::Occur`): a lower and upper bound. -/
structure Occur where
  lower : Nat
  upper : Nat
deriving DecidableEq, Repr

mutual

/-- IVT nodes (`ivt::Node`).  `ArrayRecord`/`ArrayVec` exist in the IVT
(spec §3.2) but are never constructed by this version of flatten.rs;
`mutate_node_tree` sends them to `unimplemented!()`. -/
inductive Node where
  | Literal (l : Literal)
  | PreludeType (p : PreludeType)
  | Rule (r : RuleRef)
  | Choice (options : List Node)
  | Map (members : List KeyValue)
  | ArrayRecord (members : List KeyValue)
  | ArrayVec (element : Node) (occur : Occur)

/-- IVT key/value pair with occurrence (`ivt::KeyValue`). -/
inductive KeyValue where
  | mk (key : Node) (value : Node) (occur : Occur)

end

/-- `KeyValue::new`. -/
def KeyValue.new (key value : Node) (occur : Occur) : KeyValue := .mk key value occur

/-- Occurrence in the external `cddl` crate's AST (`cddl::ast::Occur`). -/
inductive AstOccur where
  | Optional
  | ZeroOrMore
  | OneOrMore
  | Exact (lower : Option Nat) (upper : Option Nat)
deriving DecidableEq, Repr

/-- `impl From<&Option<ast::Occur>> for Occur` in flatten.rs. -/
def occur_from_ast : Option AstOccur → Occur
  | none => ⟨1, 1⟩
  | some .Optional => ⟨0, 1⟩
  | some .ZeroOrMore => ⟨0, CddlCat.usizeMax⟩
  | some .OneOrMore => ⟨1, CddlCat.usizeMax⟩
  | some (.Exact lower upper) => ⟨lower.getD 0, upper.getD CddlCat.usizeMax⟩

mutual

/-- `cddl::ast::Type`: choice alternatives. -/
inductive FType where
  | mk (type_choices : List FType1)

/-- `cddl::ast::Type1` (flatten.rs reads only its `type2` field). -/
inductive FType1 where
  | mk (type2 : FType2)

/-- `cddl::ast::Type2`: the variants flatten.rs matches on, plus `Other`
for everything it sends to `unimplemented!()`. -/
inductive FType2 where
  | UintValue (value : Nat)
  | TextValue (value : String)
  | Typename (ident : String)
  | Map (group : FGroup)
  | Other

/-- `cddl::ast::Group`. -/
inductive FGroup where
  | mk (group_choices : List FGroupChoice)

/-- `cddl::ast::GroupChoice` (the optional-comma component of each entry
tuple is irrelevant to flatten.rs and omitted). -/
inductive FGroupChoice where
  | mk (group_entries : List FGroupEntry)

/-- `cddl::ast::GroupEntry`. -/
inductive FGroupEntry where
  | ValueMemberKey (ge : FVmke)
  | TypeGroupname
  | InlineGroup

/-- `cddl::ast::ValueMemberKeyEntry`. -/
inductive FVmke where
  | mk (occur : Option AstOccur) (member_key : Option FMemberKey) (entry_type : FType)

/-- `cddl::ast::MemberKey`: bareword, type1, or the variants flatten.rs
sends to `unimplemented!()`. -/
inductive FMemberKey where
  | Bareword (ident : String)
  | Type1 (t1 : FType1)
  | Other

end

/-- `cddl::ast::TypeRule` (flatten.rs ignores `generic_param` and
`is_type_choice_alternate`, with FIXMEs). -/
structure FTypeRule where
  name : String
  value : FType

/-- `cddl::ast::Rule`: a type rule, or the group-rule variant flatten.rs
sends to `unimplemented!()`. -/
inductive FRule where
  | Type (rule : FTypeRule)
  | Other

/-- `cddl::ast::CDDL`. -/
structure CDDL where
  rules : List FRule

/-- `flatten_typename`: the prelude names the source actually handles;
`true`/`false` become boolean literals; everything else (including `nint`,
`bstr`, `float`, `null`, per the source's `FIXME: lots more prelude types
to handle`) becomes an unresolved rule reference. -/
def flatten_typename (name : String) : Node :=
  if name = ("any") then Node.PreludeType PreludeType.Any
  else if name = ("bool") then Node.PreludeType PreludeType.Bool
  else if name = ("false") then Node.Literal (Literal.Bool false)
  else if name = ("true") then Node.Literal (Literal.Bool true)
  else if name = ("int") then Node.PreludeType PreludeType.Int
  else if name = ("uint") then Node.PreludeType PreludeType.Uint
  else if name = ("tstr") then Node.PreludeType PreludeType.Tstr
  else Node.Rule (RuleRef.new name)

mutual

/-- `flatten_type`: asserts exactly one type choice (the source's
`FIXME: len > 1 means we should emit a Choice instead`), then flattens
through it. -/
def flatten_type (t : FType) : FRes Node :=
  match t with
  | .mk [ty1] => flatten_type1 ty1
  | .mk _ => .panicked ("assertion failed: ty.type_choices.len() == 1")

/-- `flatten_type1`: ranges and control operators are not handled (FIXME);
flattens the `type2`. -/
def flatten_type1 (t1 : FType1) : FRes Node :=
  match t1 with
  | .mk ty2 => flatten_type2 ty2

/-- `flatten_type2`. -/
def flatten_type2 (t2 : FType2) : FRes Node :=
  match t2 with
  | .UintValue v => .ok (Node.Literal (Literal.Int (v : Int)))
  | .TextValue s => .ok (Node.Literal (Literal.Text s))
  | .Typename id => .ok (flatten_typename id)
  | .Map g => flatten_map g
  | .Other => .panicked ("not implemented")

/-- `flatten_map`: asserts exactly one group choice, then flattens each
group entry into a `KeyValue`. -/
def flatten_map (g : FGroup) : FRes Node :=
  match g with
  | .mk [gc] =>
    match gc with
    | .mk entries => FRes.bind (flatten_entries entries) (fun kvs => .ok (Node.Map kvs))
  | .mk _ => .panicked ("assertion failed: group.group_choices.len() == 1")

/-- The entry loop of `flatten_map`. -/
def flatten_entries (l : List FGroupEntry) : FRes (List KeyValue) :=
  match l with
  | [] => .ok []
  | ge :: t =>
    FRes.bind (flatten_groupentry ge) (fun kv =>
      FRes.bind (flatten_entries t) (fun kvs => .ok (kv :: kvs)))

/-- `flatten_groupentry`: only `ValueMemberKey` entries are handled. -/
def flatten_groupentry (ge : FGroupEntry) : FRes KeyValue :=
  match ge with
  | .ValueMemberKey v => flatten_vmke v
  | .TypeGroupname => .panicked ("not implemented")
  | .InlineGroup => .panicked ("not implemented")

/-- `flatten_vmke`: occurrence, then `member_key.unwrap()` (which panics
when the key is absent, per the source's `FIXME: may be None for arrays`),
then key and value. -/
def flatten_vmke (v : FVmke) : FRes KeyValue :=
  match v with
  | .mk occ mk_opt entry_type =>
    let occur := occur_from_ast occ
    match mk_opt with
    | none => .panicked ("called `Option::unwrap()` on a `None` value")
    | some member_key =>
      FRes.bind (flatten_memberkey member_key) (fun key =>
        FRes.bind (flatten_type entry_type) (fun value =>
          .ok (KeyValue.new key value occur)))

/-- `flatten_memberkey`: barewords are literal text keys; `Type1` keys are
flattened (cut not handled, FIXME); the remaining variants are
`unimplemented!()`. -/
def flatten_memberkey (mk : FMemberKey) : FRes Node :=
  match mk with
  | .Bareword id => .ok (Node.Literal (Literal.Text id))
  | .Type1 t1 => flatten_type1 t1
  | .Other => .panicked ("not implemented")

end

/-- `flatten_typerule`: the rule name and its flattened right-hand side. -/
def flatten_typerule (tr : FTypeRule) : FRes (String × Node) :=
  FRes.bind (flatten_type tr.value) (fun rhs => .ok (tr.name, rhs))

/-- `flatten_rule`: only type rules are handled. -/
def flatten_rule (r : FRule) : FRes (String × Node) :=
  match r with
  | .Type tr => flatten_typerule tr
  | .Other => .panicked ("not implemented")

/-- Lexicographic order on strings, for the `BTreeMap` model. -/
def strLt : Str → Str → Bool
  | [], [] => false
  | [], _ :: _ => true
  | _ :: _, [] => false
  | c :: s, d :: t => if c < d then true else if d < c then false else strLt s t

/-- `RulesByName` (`BTreeMap<String, ArcNode>`), modelled as a
name-sorted association list. -/
abbrev RulesByName := List (String × Node)

/-- `BTreeMap` insertion: sorted by key, replacing an existing entry. -/
def btree_insert (m : RulesByName) (k : String) (v : Node) : RulesByName :=
  match m with
  | [] => [(k, v)]
  | (k2, v2) :: t =>
    if k = k2 then (k, v) :: t
    else if strLt k.data k2.data then (k, v) :: (k2, v2) :: t
    else (k2, v2) :: btree_insert t k v

/-- `BTreeMap::get`. -/
def rules_get (m : RulesByName) (name : String) : Option Node :=
  match m with
  | [] => none
  | (k, v) :: t => if k = name then some v else rules_get t name

mutual

/-- `mutate_node_tree`: apply the closure to the node, then recurse into
the owning children; array variants are `unimplemented!()`. -/
def mutate_node_tree (f : Node → FRes Unit) (n : Node) : FRes Unit :=
  match f n with
  | .err e => .err e
  | .panicked m => .panicked m
  | .ok _ =>
    match n with
    | .Literal _ => .ok ()
    | .PreludeType _ => .ok ()
    | .Rule _ => .ok ()
    | .Choice options => mutate_options f options
    | .Map members => mutate_members f members
    | .ArrayRecord _ => .panicked ("not implemented")
    | .ArrayVec _ _ => .panicked ("not implemented")

/-- Recursion of `mutate_node_tree` over choice options. -/
def mutate_options (f : Node → FRes Unit) : List Node → FRes Unit
  | [] => .ok ()
  | n :: t => FRes.bind (mutate_node_tree f n) (fun _ => mutate_options f t)

/-- Recursion of `mutate_node_tree` over map members (key, then value). -/
def mutate_members (f : Node → FRes Unit) : List KeyValue → FRes Unit
  | [] => .ok ()
  | .mk k v _ :: t =>
    FRes.bind (mutate_node_tree f k) (fun _ =>
      FRes.bind (mutate_node_tree f v) (fun _ => mutate_members f t))

end

/-- The closure `replace_rule_refs` runs on every node: a rule reference
whose name is not in the schema map panics (the source's
`FIXME: add graceful handling of nonexistent rule name`); on a hit, the
non-owning back-pointer is installed (`rule_ref.upgrade`), which has no
observable value-level effect. -/
def replace_refs_closure (rules : RulesByName) (node : Node) : FRes Unit :=
  match node with
  | .Rule rule_ref =>
    match rules_get rules rule_ref.name with
    | none => .panicked ("tried to access nonexistent rule '" ++ rule_ref.name ++ "'")
    | some _ => .ok ()
  | _ => .ok ()

/-- The per-root loop of `replace_rule_refs`, over `rules.values()`. -/
def replace_rule_refs_go (rules : RulesByName) : List Node → FRes Unit
  | [] => .ok ()
  | root :: t =>
    FRes.bind (mutate_node_tree (replace_refs_closure rules) root)
      (fun _ => replace_rule_refs_go rules t)

/-- `replace_rule_refs`: walk every rule's node tree (in `BTreeMap` value
order) resolving rule references. -/
def replace_rule_refs (rules : RulesByName) : FRes Unit :=
  replace_rule_refs_go rules (rules.map Prod.snd)

/-- The first pass of `flatten`: build the schema map from the rules, in
source order, with `BTreeMap` collect semantics. -/
def flatten_rules_pass : List FRule → RulesByName → FRes RulesByName
  | [], acc => .ok acc
  | r :: t, acc =>
    FRes.bind (flatten_rule r) (fun nv => flatten_rules_pass t (btree_insert acc nv.1 nv.2))

/-- `flatten`: build the node trees, then resolve rule references. -/
def flatten (ast : CDDL) : FRes RulesByName :=
  FRes.bind (flatten_rules_pass ast.rules []) (fun rules =>
    FRes.bind (replace_rule_refs rules) (fun _ => .ok rules))

end Flat

/-! Reference character classes and a result relation used by the
theorems. -/

/-- Modelled from the spec: RFC 8610's unescaped SCHAR ranges, as quoted in
the comment above `is_unescaped_schar` in parser.rs
(`SCHAR = %x20-21 / %x23-5B / %x5D-7E / %x80-10FFFD / SESC`). -/
def rfc8610_schar (c : Char) : Bool :=
  let cv := c.toNat
  (0x20 ≤ cv && cv ≤ 0x21) || (0x23 ≤ cv && cv ≤ 0x5B) ||
  (0x5D ≤ cv && cv ≤ 0x7E) || (0x80 ≤ cv && cv ≤ 0x10FFFD)

/-- Modelled from the spec: RFC 8610's unescaped BCHAR ranges, as quoted in
the comment above the byte-string parsers in parser.rs
(`BCHAR = %x20-26 / %x28-5B / %x5D-10FFFD / SESC / CRLF`). -/
def rfc8610_bchar (c : Char) : Bool :=
  let cv := c.toNat
  (0x20 ≤ cv && cv ≤ 0x26) || (0x28 ≤ cv && cv ≤ 0x5B) || (0x5D ≤ cv && cv ≤ 0x10FFFD)

/-- Relates the results of two parsers that consume identically and whose
values correspond under `g`: used to compare `cddl_slice` with `cddl`. -/
def resRel {α β : Type} (g : α → β) : PRes α → PRes β → Prop
  | .ok r a, .ok r' b => r = r' ∧ g a = b
  | .err e, .err e' => e = e'
  | .fail e, .fail e' => e = e'
  | _, _ => False

/-! Theorems.  First, general lemmas relating `cddl_slice` to `cddl`. -/

theorem resRel_pmap_recognizer {γ : Type} (q : P γ) (i : Str) :
    resRel Prod.fst (pmap (recognizer q) (fun sr => (sr.2, sr.1)) i) (q i) := by
  unfold pmap recognizer
  cases q i <;> simp [resRel]

theorem resRel_terminated {α β : Type} (x : P α) (y : P β) (g : α → β) (w : P Str)
    (i : Str) (h : resRel g (x i) (y i)) :
    resRel g (terminated x w i) (terminated y w i) := by
  unfold terminated pseq pmap
  cases hx : x i with
  | ok r a =>
    cases hy : y i with
    | ok r2 b =>
      simp [resRel, hx, hy] at h
      obtain ⟨hr, hv⟩ := h
      subst hr
      cases hw : w r <;> simp [resRel, hw, hv]
    | err e => simp [resRel, hx, hy] at h
    | fail e => simp [resRel, hx, hy] at h
  | err e =>
    cases hy : y i with
    | ok r2 b => simp [resRel, hx, hy] at h
    | err e2 => simp [resRel, hx, hy] at h ⊢; exact h
    | fail e2 => simp [resRel, hx, hy] at h
  | fail e =>
    cases hy : y i with
    | ok r2 b => simp [resRel, hx, hy] at h
    | err e2 => simp [resRel, hx, hy] at h
    | fail e2 => simp [resRel, hx, hy] at h ⊢; exact h

theorem many0Go_rel {α β : Type} (q : P α) (p : P β) (g : α → β)
    (h : ∀ i, resRel g (q i) (p i)) :
    ∀ (fuel : Nat) (i : Str) (accq : List α) (accp : List β),
      accq.map g = accp →
      resRel (List.map g) (many0Go q fuel i accq) (many0Go p fuel i accp) := by
  intro fuel
  induction fuel with
  | zero => intro i accq accp hacc; simp [many0Go, resRel]
  | succ n ih =>
    intro i accq accp hacc
    have hi := h i
    unfold many0Go
    cases hq : q i with
    | ok r v =>
      cases hp : p i with
      | ok r2 w =>
        simp [resRel, hq, hp] at hi
        obtain ⟨hr, hv⟩ := hi
        subst hr
        by_cases hlen : r.length = i.length
        · simp [hlen, resRel]
        · simp [hlen]
          exact ih _ _ _ (by simp [hacc, hv])
      | err e => simp [resRel, hq, hp] at hi
      | fail e => simp [resRel, hq, hp] at hi
    | err e =>
      cases hp : p i with
      | ok r2 w => simp [resRel, hq, hp] at hi
      | err e2 => simp [resRel, hq, hp, ← hacc, List.map_reverse]
      | fail e2 => simp [resRel, hq, hp] at hi
    | fail e =>
      cases hp : p i with
      | ok r2 w => simp [resRel, hq, hp] at hi
      | err e2 => simp [resRel, hq, hp] at hi
      | fail e2 => simp [resRel, hq, hp] at hi ⊢; exact hi

theorem many1_rel {α β : Type} (q : P α) (p : P β) (g : α → β)
    (h : ∀ i, resRel g (q i) (p i)) (i : Str) :
    resRel (List.map g) (many1 q i) (many1 p i) := by
  have hi := h i
  unfold many1
  cases hq : q i with
  | ok r v =>
    cases hp : p i with
    | ok r2 w =>
      simp [resRel, hq, hp] at hi
      obtain ⟨hr, hv⟩ := hi
      subst hr
      exact many0Go_rel q p g h _ _ _ _ (by simp [hv])
    | err e => simp [resRel, hq, hp] at hi
    | fail e => simp [resRel, hq, hp] at hi
  | err e =>
    cases hp : p i with
    | ok r2 w => simp [resRel, hq, hp] at hi
    | err e2 => simp [resRel, hq, hp] at hi ⊢; exact hi
    | fail e2 => simp [resRel, hq, hp] at hi
  | fail e =>
    cases hp : p i with
    | ok r2 w => simp [resRel, hq, hp] at hi
    | err e2 => simp [resRel, hq, hp] at hi
    | fail e2 => simp [resRel, hq, hp] at hi ⊢; exact hi

theorem pseq_first_rel {σ α β : Type} (f : P σ) (x : σ → P α) (y : σ → P β)
    (g : α → β) (h : ∀ s j, resRel g (x s j) (y s j)) (i : Str) :
    resRel g (pseq f x i) (pseq f y i) := by
  unfold pseq
  cases f i <;> simp [resRel]
  exact h _ _

/-- Claim C9: for every input string, `slice_parse_cddl` succeeds exactly
when `parse_cddl` succeeds; on success the rules it returns (the first
components of its rule/source-text pairs) equal the rules `parse_cddl`
returns, and on failure both return the same `ParseError`. -/
theorem c9_slice_equiv (input : Str) :
    (∃ c : CddlSlice, slice_parse_cddl input = Except.ok c ∧
        parse_cddl input = Except.ok (Cddl.mk (c.rules.map Prod.fst)))
    ∨ (∃ e : ParseError, slice_parse_cddl input = Except.error e ∧
        parse_cddl input = Except.error e) := by
  have hitem : ∀ j, resRel Prod.fst
      (terminated (pmap (recognizer (rule (grammarFuel input))) (fun sr => (sr.2, sr.1))) ws j)
      (terminated (rule (grammarFuel input)) ws j) :=
    fun j => resRel_terminated _ _ _ ws j (resRel_pmap_recognizer (rule (grammarFuel input)) j)
  have hbody : resRel (List.map Prod.fst)
      (preceded ws (many1 (terminated
        (pmap (recognizer (rule (grammarFuel input))) (fun sr => (sr.2, sr.1))) ws)) input)
      (preceded ws (many1 (terminated (rule (grammarFuel input)) ws)) input) := by
    unfold preceded
    exact pseq_first_rel ws _ _ _ (fun _ j => many1_rel _ _ _ hitem j) input
  cases hs : preceded ws (many1 (terminated
      (pmap (recognizer (rule (grammarFuel input))) (fun sr => (sr.2, sr.1))) ws)) input with
  | ok r ls =>
    cases hp : preceded ws (many1 (terminated (rule (grammarFuel input)) ws)) input with
    | ok r2 lp =>
      rw [hs, hp] at hbody
      simp only [resRel] at hbody
      obtain ⟨hr, hv⟩ := hbody
      subst hr
      cases r with
      | nil =>
        left
        refine ⟨CddlSlice.mk ls, ?_, ?_⟩ <;>
          simp [slice_parse_cddl, parse_cddl, allConsuming, cddl_slice, cddl, pmap, hs, hp, hv]
      | cons c t =>
        right
        refine ⟨fromErrorKind (c :: t), ?_, ?_⟩ <;>
          simp [slice_parse_cddl, parse_cddl, allConsuming, cddl_slice, cddl, pmap, hs, hp]
    | err e => rw [hs, hp] at hbody; simp [resRel] at hbody
    | fail e => rw [hs, hp] at hbody; simp [resRel] at hbody
  | err e =>
    cases hp : preceded ws (many1 (terminated (rule (grammarFuel input)) ws)) input with
    | ok r2 lp => rw [hs, hp] at hbody; simp [resRel] at hbody
    | err e2 =>
      rw [hs, hp] at hbody
      simp only [resRel] at hbody
      subst hbody
      right
      refine ⟨e, ?_, ?_⟩ <;>
        simp [slice_parse_cddl, parse_cddl, allConsuming, cddl_slice, cddl, pmap, hs, hp]
    | fail e2 => rw [hs, hp] at hbody; simp [resRel] at hbody
  | fail e =>
    cases hp : preceded ws (many1 (terminated (rule (grammarFuel input)) ws)) input with
    | ok r2 lp => rw [hs, hp] at hbody; simp [resRel] at hbody
    | err e2 => rw [hs, hp] at hbody; simp [resRel] at hbody
    | fail e2 =>
      rw [hs, hp] at hbody
      simp only [resRel] at hbody
      subst hbody
      right
      refine ⟨e, ?_, ?_⟩ <;>
        simp [slice_parse_cddl, parse_cddl, allConsuming, cddl_slice, cddl, pmap, hs, hp]

/-! Numeric lemmas for the integer claims. -/

theorem foldl_radix_cons (b : Nat) (c : Char) (t : Str) (acc : Nat) :
    (c :: t).foldl (fun a ch => a * b + (toDigit ch b).getD 0) acc =
      t.foldl (fun a ch => a * b + (toDigit ch b).getD 0) (acc * b + (toDigit c b).getD 0) := by
  simp [List.foldl_cons]

/-- If the checked radix conversion succeeds, its result is the ideal radix
value of the digit string and fits in a `u64`. -/
theorem fromStrRadixGo_some (b : Nat) :
    ∀ (s : Str) (acc v : Nat), fromStrRadixGo b s acc = some v →
      (acc ≤ u64Max → v ≤ u64Max) ∧
      v = s.foldl (fun a ch => a * b + (toDigit ch b).getD 0) acc := by
  intro s
  induction s with
  | nil =>
    intro acc v h
    simp [fromStrRadixGo] at h
    subst h
    exact ⟨fun hle => hle, by simp⟩
  | cons c t ih =>
    intro acc v h
    unfold fromStrRadixGo at h
    cases hd : toDigit c b with
    | none => rw [hd] at h; cases h
    | some d =>
      simp only [hd] at h
      by_cases h1 : acc * b ≤ u64Max
      · rw [if_pos h1] at h
        by_cases h2 : acc * b + d ≤ u64Max
        · rw [if_pos h2] at h
          obtain ⟨hbound, hval⟩ := ih (acc * b + d) v h
          refine ⟨fun _ => hbound h2, ?_⟩
          rw [foldl_radix_cons, hd]
          simpa using hval
        · rw [if_neg h2] at h; cases h
      · rw [if_neg h1] at h; cases h

/-- `u64::from_str_radix` succeeds only on values that fit in a `u64`, and
then computes the ideal radix value. -/
theorem fromStrRadix_some {s : Str} {b v : Nat} (h : fromStrRadix s b = some v) :
    v ≤ u64Max ∧ v = radixVal s b := by
  unfold fromStrRadix at h
  cases s with
  | nil => cases h
  | cons c t =>
    obtain ⟨hbound, hval⟩ := fromStrRadixGo_some b (c :: t) 0 v h
    exact ⟨hbound (by simp [u64Max]), hval⟩

/-- Claim C8: `uint_u64` on `0xFFFFFFFFFFFFFFFF` succeeds with value
`2^64 - 1`, and whenever the lexed unsigned-integer literal has a radix
value exceeding `u64::MAX`, `uint_u64` fails with a `MalformedInteger`
error whose context is the digit slice. -/
theorem c8_uint_u64_bounds :
    uint_u64 ("0xFFFFFFFFFFFFFFFF".data) = PRes.ok [] (2 ^ 64 - 1) ∧
    ∀ (i r : Str) (raw : RawUint), uint i = PRes.ok r raw →
      u64Max < radixVal raw.slice raw.base →
      uint_u64 i = PRes.fail ⟨ErrorKind.MalformedInteger, raw.slice⟩ := by
  constructor
  · rfl
  · intro i r raw hu hov
    have hnone : fromStrRadix raw.slice raw.base = none := by
      cases hfs : fromStrRadix raw.slice raw.base with
      | none => rfl
      | some v =>
        obtain ⟨hle, hval⟩ := fromStrRadix_some hfs
        omega
    simp [uint_u64, mapResFail, hu, hnone]

/-- Witness for C8 at the concrete input `0xFFFFFFFFFFFFFFFFF` (one more
hex digit than `u64::MAX`). -/
theorem c8_uint_u64_bounds_witness :
    uint_u64 ("0xFFFFFFFFFFFFFFFFF".data) =
      PRes.fail ⟨ErrorKind.MalformedInteger, ("FFFFFFFFFFFFFFFFF".data)⟩ :=
  c8_uint_u64_bounds.2 ("0xFFFFFFFFFFFFFFFFF".data) [] ⟨("FFFFFFFFFFFFFFFFF".data), 16⟩
    (by decide) (by decide)

/-- Claim C10: the literal `-9223372036854775808` (`i64::MIN`, representable
as an `i64`) is rejected by `parse_int` (and by the full number parser) with
a `MalformedInteger` error, while every negative decimal literal whose
magnitude is at most `i64::MAX` parses to `Value::Nint` of the negated
value. -/
theorem c10_nint_boundary :
    parse_int ⟨("9223372036854775808".data), 10, true⟩ =
      Except.error ⟨ErrorKind.MalformedInteger, ("9223372036854775808".data)⟩ ∧
    float_or_int ("-9223372036854775808".data) =
      PRes.fail ⟨ErrorKind.MalformedInteger, ("9223372036854775808".data)⟩ ∧
    ∀ (s : Str) (v : Nat), fromStrRadix s 10 = some v → v ≤ i64Max →
      parse_int ⟨s, 10, true⟩ = Except.ok (Value.Nint (-(v : Int))) := by
  refine ⟨rfl, rfl, ?_⟩
  intro s v h hle
  simp [parse_int, h, tryIntoI64, hle]

/-- Witness for C10: `-123` parses to `Nint(-123)`. -/
theorem c10_nint_boundary_witness :
    parse_int ⟨("123".data), 10, true⟩ = Except.ok (Value.Nint (-((123 : Nat) : Int))) :=
  c10_nint_boundary.2.2 ("123".data) 123 (by decide) (by decide)

/-- Claim C3 counterexample: parsing the occurrence `9*2` yields
`Numbered(9, 2)`, and the flattener's occurrence conversion maps
`Exact(Some 9, Some 2)` to the IVT pair `(lower 9, upper 2)`, violating
`lower ≤ upper`. -/
theorem c3_occur_counterexample :
    occur ("9*2".data) = PRes.ok [] (AstOccur.Numbered 9 2) ∧
    Flat.occur_from_ast (some (Flat.AstOccur.Exact (some 9) (some 2))) =
      { lower := 9, upper := 2 } ∧
    ¬ ((9 : Nat) ≤ 2) :=
  ⟨rfl, rfl, by decide⟩

/-- Claim C3 amended: every occurrence mapped into the IVT satisfies
`lower ≤ upper` except an explicit numbered occurrence `n*m` with `n > m`,
which is passed through unchanged; i.e. the invariant holds whenever
explicit `n*m` bounds satisfy `n ≤ m` (absent bounds default to `0` and
`usize::MAX` and always satisfy it, for any in-range lower bound). -/
theorem c3_occur_amended (o : Option Flat.AstOccur)
    (hnm : ∀ n m : Nat, o = some (Flat.AstOccur.Exact (some n) (some m)) → n ≤ m)
    (hl : ∀ n : Nat, o = some (Flat.AstOccur.Exact (some n) none) → n ≤ usizeMax) :
    (Flat.occur_from_ast o).lower ≤ (Flat.occur_from_ast o).upper := by
  match o with
  | none => simp [Flat.occur_from_ast]
  | some .Optional => simp [Flat.occur_from_ast]
  | some .ZeroOrMore => simp [Flat.occur_from_ast]
  | some .OneOrMore =>
    simp only [Flat.occur_from_ast, usizeMax]
    norm_num
  | some (.Exact none none) => simp [Flat.occur_from_ast]
  | some (.Exact none (some m)) => simp [Flat.occur_from_ast]
  | some (.Exact (some n) none) => simpa [Flat.occur_from_ast] using hl n rfl
  | some (.Exact (some n) (some m)) => simpa [Flat.occur_from_ast] using hnm n m rfl

/-- Witness for the amended C3 at the in-order occurrence `3*5`. -/
theorem c3_occur_amended_witness :
    (Flat.occur_from_ast (some (Flat.AstOccur.Exact (some 3) (some 5)))).lower ≤
      (Flat.occur_from_ast (some (Flat.AstOccur.Exact (some 3) (some 5)))).upper :=
  c3_occur_amended _ (by intro n m h; simp at h; omega) (by intro n h; simp at h)

/-- Claim C1: flattening a schema whose only rule references the undefined
rule name `foo` does not return an `UnknownRule` error value: it panics
with the message `tried to access nonexistent rule 'foo'`. -/
theorem c1_unknown_rule_panics :
    Flat.flatten ⟨[Flat.FRule.Type ⟨("thing"),
        Flat.FType.mk [Flat.FType1.mk (Flat.FType2.Typename ("foo"))]⟩]⟩ =
      Flat.FRes.panicked ("tried to access nonexistent rule 'foo'") := rfl

/-- Claim C2: flattening a rule with two type-choice alternatives
(`thing = 1 / 2`) does not build a `Choice` node: `flatten_type` asserts a
single alternative and panics. -/
theorem c2_choice_asserts :
    Flat.flatten ⟨[Flat.FRule.Type ⟨("thing"),
        Flat.FType.mk [Flat.FType1.mk (Flat.FType2.UintValue 1),
          Flat.FType1.mk (Flat.FType2.UintValue 2)]⟩]⟩ =
      Flat.FRes.panicked ("assertion failed: ty.type_choices.len() == 1") := rfl

/-- Claim C4: the typenames `nint`, `bstr`, `float` and `null` are not in
the flattener's prelude table: each becomes an unresolved rule reference,
never a `PreludeType` node. -/
theorem c4_prelude_gaps :
    Flat.flatten_typename ("nint") = Flat.Node.Rule (Flat.RuleRef.new ("nint")) ∧
    Flat.flatten_typename ("bstr") = Flat.Node.Rule (Flat.RuleRef.new ("bstr")) ∧
    Flat.flatten_typename ("float") = Flat.Node.Rule (Flat.RuleRef.new ("float")) ∧
    Flat.flatten_typename ("null") = Flat.Node.Rule (Flat.RuleRef.new ("null")) ∧
    ∀ t : Flat.PreludeType,
      Flat.flatten_typename ("nint") ≠ Flat.Node.PreludeType t :=
  ⟨rfl, rfl, rfl, rfl, fun _ h => Flat.Node.noConfusion h⟩

/-- Claim C5: the character `Y` (0x59) lies inside RFC 8610's unescaped
SCHAR range `0x23-0x5B` (as quoted in the source's own comment), but
`is_unescaped_schar` rejects it, so the text literal `"Y"` fails to
parse. -/
theorem c5_schar_range_gap :
    is_unescaped_schar 'Y' = false ∧
    rfc8610_schar 'Y' = true ∧
    text_literal ("\"Y\"".data) = PRes.err ⟨ErrorKind.Unparseable, ("Y\"".data)⟩ :=
  ⟨rfl, rfl, rfl⟩

/-- Claim C6: the space character (0x20) is in RFC 8610's BCHAR class, but
`bytestring_utf8` only accepts ASCII letters (`alpha0`), so the byte-string
literal `' '` fails to parse; an all-letters payload still yields its UTF-8
bytes. -/
theorem c6_bchar_space_rejected :
    rfc8610_bchar ' ' = true ∧
    bytestring ("' '".data) = PRes.err ⟨ErrorKind.Unparseable, ("' '".data)⟩ ∧
    bytestring ("'abc'".data) = PRes.ok [] [97, 98, 99] :=
  ⟨rfl, rfl, rfl⟩

/-- Claim C7 counterexample: `0b1.1` and `0b1e99` fail with kind
`MalformedFloat`, not `MalformedInteger`. -/
theorem c7_radix_float_counterexample :
    float_or_int ("0b1.1".data) = PRes.fail ⟨ErrorKind.MalformedFloat, ("0b1.1".data)⟩ ∧
    float_or_int ("0b1e99".data) = PRes.fail ⟨ErrorKind.MalformedFloat, ("0b1e99".data)⟩ ∧
    ErrorKind.MalformedFloat ≠ ErrorKind.MalformedInteger :=
  ⟨rfl, rfl, by decide⟩

/-! Lemmas for the amended C7: a radix-prefixed literal with a fraction or
exponent always reaches `parse_float` with the full prefixed text, which the
float grammar rejects. -/

theorem tagMatch_some : ∀ (t i r : Str), tagMatch t i = some r → i = t ++ r := by
  intro t
  induction t with
  | nil => intro i r h; simp [tagMatch] at h; simp [h]
  | cons c t ih =>
    intro i r h
    cases i with
    | nil => simp [tagMatch] at h
    | cons d i2 =>
      unfold tagMatch at h
      by_cases hcd : c = d
      · rw [if_pos hcd] at h
        subst hcd
        simpa using ih i2 r h
      · rw [if_neg hcd] at h; cases h

theorem takeWhile1_ok {p : Char → Bool} {i r l : Str} (h : takeWhile1 p i = .ok r l) :
    l = i.takeWhile p ∧ r = i.dropWhile p ∧ l ≠ [] := by
  unfold takeWhile1 at h
  cases htw : i.takeWhile p with
  | nil => rw [htw] at h; cases h
  | cons c t =>
    rw [htw] at h
    injection h with h1 h2
    exact ⟨h2.symm, h1.symm, h2 ▸ (by simp)⟩

theorem dropWhile_length_lt {p : Char → Bool} {t : Str}
    (h : t.takeWhile p ≠ []) : (t.dropWhile p).length < t.length := by
  have happ := List.takeWhile_append_dropWhile (p := p) (l := t)
  have hlen : (t.takeWhile p).length + (t.dropWhile p).length = t.length := by
    rw [← List.length_append, happ]
  have hpos : 0 < (t.takeWhile p).length := List.length_pos.mpr h
  omega

theorem uint_hex_ok {i r ds : Str} (h : uint_hex i = .ok r ds) :
    ∃ t, i = '0' :: 'x' :: t ∧ r.length < t.length := by
  cases htm : tagMatch ("0x".data) i with
  | some rest =>
    have htag : uint_hex i = hex_digit1 rest := by
      unfold uint_hex preceded pseq tag; rw [htm]
    rw [htag] at h
    have hi := tagMatch_some _ _ _ htm
    unfold hex_digit1 at h
    obtain ⟨hl, hr, hne⟩ := takeWhile1_ok h
    refine ⟨rest, by simpa using hi, ?_⟩
    rw [hr]
    exact dropWhile_length_lt (hl ▸ hne)
  | none =>
    have htag : uint_hex i = .err (fromErrorKind i) := by
      unfold uint_hex preceded pseq tag; rw [htm]
    rw [htag] at h; cases h

theorem oneOf_ok {cs : Str} {j r : Str} {v : Char} (h : oneOf cs j = .ok r v) :
    j = v :: r := by
  cases j with
  | nil => cases h
  | cons c j2 =>
    have he0 : oneOf cs (c :: j2) =
        if cs.contains c then PRes.ok j2 c else PRes.err (fromErrorKind (c :: j2)) := rfl
    by_cases hc : cs.contains c
    · rw [he0, if_pos hc] at h
      injection h with h1 h2
      rw [h1, h2]
    · rw [he0, if_neg hc] at h
      cases h

theorem many0Go_oneOf_length (cs : Str) :
    ∀ (fuel : Nat) (j : Str) (acc : List Char) (r : Str) (l : List Char),
      many0Go (oneOf cs) fuel j acc = .ok r l → r.length ≤ j.length := by
  intro fuel
  induction fuel with
  | zero => intro j acc r l h; cases h
  | succ n ih =>
    intro j acc r l h
    cases hone : oneOf cs j with
    | err e =>
      have he : many0Go (oneOf cs) (n + 1) j acc = .ok j acc.reverse := by
        unfold many0Go; rw [hone]
      rw [he] at h
      injection h with h1 h2
      rw [← h1]
    | fail e =>
      have he : many0Go (oneOf cs) (n + 1) j acc = .fail e := by
        unfold many0Go; rw [hone]
      rw [he] at h
      cases h
    | ok r1 v =>
      have hshape := oneOf_ok hone
      have hlt : r1.length < j.length := by rw [hshape]; simp
      have he : many0Go (oneOf cs) (n + 1) j acc =
          if r1.length = j.length then PRes.err (fromErrorKind j)
          else many0Go (oneOf cs) n r1 (v :: acc) := by
        conv_lhs => rw [many0Go]
        rw [hone]
      rw [he, if_neg (by omega)] at h
      have := ih r1 (v :: acc) r l h
      omega

theorem uint_binary_ok {i r ds : Str} (h : uint_binary i = .ok r ds) :
    ∃ t, i = '0' :: 'b' :: t ∧ r.length < t.length := by
  cases htm : tagMatch ("0b".data) i with
  | some rest =>
    have htag : uint_binary i = recognize (many1 (oneOf ("01".data))) rest := by
      unfold uint_binary preceded pseq tag; rw [htm]
    rw [htag] at h
    have hi := tagMatch_some _ _ _ htm
    cases hone : oneOf ("01".data) rest with
    | err e =>
      have he : recognize (many1 (oneOf ("01".data))) rest = .err e := by
        unfold recognize many1; rw [hone]
      rw [he] at h; cases h
    | fail e =>
      have he : recognize (many1 (oneOf ("01".data))) rest = .fail e := by
        unfold recognize many1; rw [hone]
      rw [he] at h; cases h
    | ok r1 v =>
      have hm1 : many1 (oneOf ("01".data)) rest =
          many0Go (oneOf ("01".data)) (r1.length + 1) r1 [v] := by
        unfold many1; rw [hone]
      cases hgo : many0Go (oneOf ("01".data)) (r1.length + 1) r1 [v] with
      | ok r0 l =>
        have he : recognize (many1 (oneOf ("01".data))) rest =
            .ok r0 (rest.take (rest.length - r0.length)) := by
          unfold recognize; rw [hm1, hgo]
        rw [he] at h
        injection h with h1 h2
        have hlen0 := many0Go_oneOf_length ("01".data) _ _ _ _ _ hgo
        have hshape := oneOf_ok hone
        refine ⟨rest, by simpa using hi, ?_⟩
        rw [← h1, hshape]
        simp only [List.length_cons]
        omega
      | err e =>
        have he : recognize (many1 (oneOf ("01".data))) rest = .err e := by
          unfold recognize; rw [hm1, hgo]
        rw [he] at h; cases h
      | fail e =>
        have he : recognize (many1 (oneOf ("01".data))) rest = .fail e := by
          unfold recognize; rw [hm1, hgo]
        rw [he] at h; cases h
  | none =>
    have htag : uint_binary i = .err (fromErrorKind i) := by
      unfold uint_binary preceded pseq tag; rw [htm]
    rw [htag] at h; cases h

/-! Step equations for the combinators, used to compute parser runs from
hypotheses about their components. -/

theorem pseq_ok {α β : Type} {f : P α} {g : α → P β} {i r : Str} {v : α}
    (hf : f i = .ok r v) : pseq f g i = g v r := by
  unfold pseq; rw [hf]

theorem pseq_err {α β : Type} {f : P α} {g : α → P β} {i : Str} {e : ParseError}
    (hf : f i = .err e) : pseq f g i = .err e := by
  unfold pseq; rw [hf]

theorem pseq_fail {α β : Type} {f : P α} {g : α → P β} {i : Str} {e : ParseError}
    (hf : f i = .fail e) : pseq f g i = .fail e := by
  unfold pseq; rw [hf]

theorem pmap_ok {α β : Type} {f : P α} {g : α → β} {i r : Str} {v : α}
    (hf : f i = .ok r v) : pmap f g i = .ok r (g v) := by
  unfold pmap; rw [hf]

theorem pmap_err {α β : Type} {f : P α} {g : α → β} {i : Str} {e : ParseError}
    (hf : f i = .err e) : pmap f g i = .err e := by
  unfold pmap; rw [hf]

theorem pmap_fail {α β : Type} {f : P α} {g : α → β} {i : Str} {e : ParseError}
    (hf : f i = .fail e) : pmap f g i = .fail e := by
  unfold pmap; rw [hf]

theorem recognize_ok {α : Type} {f : P α} {i r : Str} {v : α}
    (hf : f i = .ok r v) : recognize f i = .ok r (i.take (i.length - r.length)) := by
  unfold recognize; rw [hf]

theorem recognize_err {α : Type} {f : P α} {i : Str} {e : ParseError}
    (hf : f i = .err e) : recognize f i = .err e := by
  unfold recognize; rw [hf]

theorem recognize_fail {α : Type} {f : P α} {i : Str} {e : ParseError}
    (hf : f i = .fail e) : recognize f i = .fail e := by
  unfold recognize; rw [hf]

theorem optx_some {α : Type} {f : P α} {i r : Str} {v : α}
    (hf : f i = .ok r v) : optx f i = .ok r (some v) := by
  unfold optx; rw [hf]

theorem optx_none {α : Type} {f : P α} {i : Str} {e : ParseError}
    (hf : f i = .err e) : optx f i = .ok i none := by
  unfold optx; rw [hf]

theorem charx_cons (ch c : Char) (u : Str) :
    charx ch (c :: u) =
      if c = ch then PRes.ok u ch else PRes.err (fromErrorKind (c :: u)) := rfl

theorem length_dropWhile_le (p : Char → Bool) (l : Str) :
    (l.dropWhile p).length ≤ l.length :=
  (List.dropWhile_suffix p).sublist.length_le

theorem optx_ok_cases {α : Type} {f : P α} {r r2 : Str} {o : Option α}
    (h : optx f r = .ok r2 o) :
    (o = none ∧ r2 = r) ∨ (∃ v, o = some v ∧ f r = .ok r2 v) := by
  cases hf : f r with
  | ok ra va =>
    rw [optx_some hf] at h
    injection h with h1 h2
    subst h1
    exact Or.inr ⟨va, h2.symm, rfl⟩
  | err e =>
    rw [optx_none hf] at h
    injection h with h1 h2
    exact Or.inl ⟨h2.symm, h1.symm⟩
  | fail e =>
    have : optx f r = .fail e := by unfold optx; rw [hf]
    rw [this] at h; cases h

theorem dot_fraction_length {r r2 v : Str} (h : dot_fraction r = .ok r2 v) :
    r2.length < r.length := by
  cases r with
  | nil => cases h
  | cons c u =>
    by_cases hc : c = '.'
    · subst hc
      have hch : charx '.' ('.' :: u) = .ok u '.' := rfl
      cases hd : digit1 u with
      | ok rd ld =>
        have hpair : pairx (charx '.') digit1 ('.' :: u) = .ok rd ('.', ld) := by
          unfold pairx
          rw [pseq_ok hch, pmap_ok hd]
        rw [dot_fraction, recognize_ok hpair] at h
        injection h with h1 h2
        unfold digit1 at hd
        obtain ⟨_, hr, _⟩ := takeWhile1_ok hd
        have hdw := length_dropWhile_le isDigitChar u
        rw [← h1, hr]
        simp only [List.length_cons]
        omega
      | err e =>
        have hpair : pairx (charx '.') digit1 ('.' :: u) = .err e := by
          unfold pairx
          rw [pseq_ok hch, pmap_err hd]
        rw [dot_fraction, recognize_err hpair] at h; cases h
      | fail e =>
        have hpair : pairx (charx '.') digit1 ('.' :: u) = .fail e := by
          unfold pairx
          rw [pseq_ok hch, pmap_fail hd]
        rw [dot_fraction, recognize_fail hpair] at h; cases h
    · have hch : charx '.' (c :: u) = .err (fromErrorKind (c :: u)) := by
        rw [charx_cons, if_neg hc]
      have hpair : pairx (charx '.') digit1 (c :: u) = .err (fromErrorKind (c :: u)) := by
        unfold pairx
        rw [pseq_err hch]
      rw [dot_fraction, recognize_err hpair] at h; cases h

theorem e_exponent_length {r r2 v : Str} (h : e_exponent r = .ok r2 v) :
    r2.length < r.length := by
  cases r with
  | nil => cases h
  | cons c u =>
    by_cases hc : c = 'e'
    · subst hc
      have hch : charx 'e' ('e' :: u) = .ok u 'e' := rfl
      cases hs : optx (oneOf ("+-".data)) u with
      | ok u2 o =>
        cases hd : digit1 u2 with
        | ok rd ld =>
          have htup : tuple3 (charx 'e') (optx (oneOf ("+-".data))) digit1 ('e' :: u) =
              .ok rd ('e', o, ld) := by
            unfold tuple3
            rw [pseq_ok hch, pseq_ok hs, pmap_ok hd]
          rw [e_exponent, recognize_ok htup] at h
          injection h with h1 h2
          unfold digit1 at hd
          obtain ⟨_, hr, _⟩ := takeWhile1_ok hd
          have hu2 : u2.length ≤ u.length := by
            rcases optx_ok_cases hs with ⟨_, hru⟩ | ⟨w, _, hw⟩
            · rw [hru]
            · rw [oneOf_ok hw]; simp
          have hdw := length_dropWhile_le isDigitChar u2
          rw [← h1, hr]
          simp only [List.length_cons]
          omega
        | err e =>
          have htup : tuple3 (charx 'e') (optx (oneOf ("+-".data))) digit1 ('e' :: u) =
              .err e := by
            unfold tuple3
            rw [pseq_ok hch, pseq_ok hs, pmap_err hd]
          rw [e_exponent, recognize_err htup] at h; cases h
        | fail e =>
          have htup : tuple3 (charx 'e') (optx (oneOf ("+-".data))) digit1 ('e' :: u) =
              .fail e := by
            unfold tuple3
            rw [pseq_ok hch, pseq_ok hs, pmap_fail hd]
          rw [e_exponent, recognize_fail htup] at h; cases h
      | err e =>
        have htup : tuple3 (charx 'e') (optx (oneOf ("+-".data))) digit1 ('e' :: u) =
            .err e := by
          unfold tuple3
          rw [pseq_ok hch, pseq_err hs]
        rw [e_exponent, recognize_err htup] at h; cases h
      | fail e =>
        have htup : tuple3 (charx 'e') (optx (oneOf ("+-".data))) digit1 ('e' :: u) =
            .fail e := by
          unfold tuple3
          rw [pseq_ok hch, pseq_fail hs]
        rw [e_exponent, recognize_fail htup] at h; cases h
    · have hch : charx 'e' (c :: u) = .err (fromErrorKind (c :: u)) := by
        rw [charx_cons, if_neg hc]
      have htup : tuple3 (charx 'e') (optx (oneOf ("+-".data))) digit1 (c :: u) =
          .err (fromErrorKind (c :: u)) := by
        unfold tuple3
        rw [pseq_err hch]
      rw [e_exponent, recognize_err htup] at h; cases h

theorem rustFloat_prefix_x (s : Str) : rustFloatParseable ('0' :: 'x' :: s) = false := rfl

theorem rustFloat_prefix_b (s : Str) : rustFloatParseable ('0' :: 'b' :: s) = false := rfl

theorem take_cons2 (a b : Char) (t : Str) (k : Nat) (hk : 2 ≤ k) :
    (a :: b :: t).take k = a :: b :: t.take (k - 2) := by
  obtain ⟨k2, rfl⟩ : ∃ k2, k = k2 + 2 := ⟨k - 2, by omega⟩
  simp [List.take_succ_cons]

/-- Claim C7 amended: for every numeric literal whose integer part is lexed
with a `0x` or `0b` radix prefix and which is followed by a fraction part or
an exponent part, parsing fails with a `ParseError` of kind
`MalformedFloat` (the recognized text, radix prefix included, is handed to
the float parser, which rejects it). -/
theorem c7_radix_float_amended (i r r2 r3 ds : Str) (o1 o2 : Option Str)
    (hx : uint_hex i = .ok r ds ∨ uint_binary i = .ok r ds)
    (hfrac : optx dot_fraction r = .ok r2 o1)
    (hexp : optx e_exponent r2 = .ok r3 o2)
    (hsome : o1.isSome || o2.isSome) :
    float_or_int i = PRes.fail ⟨ErrorKind.MalformedFloat, i.take (i.length - r3.length)⟩ := by
  -- Step 1: the radix branch taken by `uint`, and the input's prefix shape.
  have hshape : (∃ t, i = '0' :: 'x' :: t ∧ r.length < t.length ∧ uint i = .ok r ⟨ds, 16⟩) ∨
      (∃ t, i = '0' :: 'b' :: t ∧ r.length < t.length ∧ uint i = .ok r ⟨ds, 2⟩) := by
    rcases hx with hx | hx
    · obtain ⟨t, hi, hlt⟩ := uint_hex_ok hx
      exact Or.inl ⟨t, hi, hlt, by simp [uint, alt2, pmap, hx]⟩
    · obtain ⟨t, hi, hlt⟩ := uint_binary_ok hx
      have hhexerr : uint_hex i = .err (fromErrorKind i) := by rw [hi]; rfl
      exact Or.inr ⟨t, hi, hlt, by simp [uint, alt2, pmap, hhexerr, hx]⟩
  -- Step 2: lengths, shared between the two branches.
  have hr2len : r2.length ≤ r.length := by
    rcases optx_ok_cases hfrac with ⟨_, hrr⟩ | ⟨v, _, hv⟩
    · rw [hrr]
    · exact le_of_lt (dot_fraction_length hv)
  have hr3len : r3.length ≤ r2.length := by
    rcases optx_ok_cases hexp with ⟨_, hrr⟩ | ⟨v, _, hv⟩
    · rw [hrr]
    · exact le_of_lt (e_exponent_length hv)
  -- Step 3: assemble `float_or_int` along either branch.
  rcases hshape with ⟨t, hi, hlt, huint⟩ | ⟨t, hi, hlt, huint⟩ <;>
  · have hcharneg : optx (charx '-') i = .ok i none := by rw [hi]; rfl
    have hk : 2 ≤ i.length - r3.length := by
      have : i.length = t.length + 2 := by rw [hi]; simp
      omega
    have hfp : rustFloatParseable (i.take (i.length - r3.length)) = false := by
      rw [hi, take_cons2 _ _ _ _ (by rw [← hi]; exact hk)]
      rfl
    have hsome2 : (o1.isSome || o2.isSome) = true := hsome
    simp [float_or_int, mapResFail, recognizer, tuple3, pseq, pmap, int, pairx,
      hcharneg, huint, hfrac, hexp, hsome2, parse_float, hfp]

/-- Witness for the amended C7 at the concrete literal `0x1.5`. -/
theorem c7_radix_float_amended_witness :
    float_or_int ("0x1.5".data) = PRes.fail ⟨ErrorKind.MalformedFloat, ("0x1.5".data)⟩ := by
  have h := c7_radix_float_amended ("0x1.5".data) (".5".data) [] [] ("1".data)
      (some (".5".data)) none (Or.inl rfl) rfl rfl rfl
  simpa using h

end CddlCat
